import Mathlib

/-!
# Verification of the tracefp frame-pointer stack walker

Shallow embedding of `src/lib.rs` of the `tracefp` crate:

* `walkLoop` / `trace_from_ucontext` / `trace` — the frame-pointer walk.
  Machine words are `Nat` reduced modulo `W = 2^64` (release-mode wrapping
  semantics of the Rust `u64` arithmetic).  Stack memory is a partial map
  `Mem`, the seam through which the source routes every read
  (`load::<u64>`).  The caller's `FnMut` closure is modelled as a function
  of the 0-based invocation index (standing for its mutable state) and the
  pc it receives.  Because the source `while` loop need not terminate, the
  embedding is fuel-indexed; exhausting the fuel is reported as a distinct
  outcome, so "the loop is still running after any bound" is expressible.
  Each run also yields the ordered list of observable events (callback
  invocations and `load` calls), which the theorems inspect.
* `Registers.from_ucontext_*` — the four per-platform register extractors.
* `drainLoop` / `writeLoop` / `can_access` — the pipe-based memory probe
  (`access_check::can_access`), with the kernel's responses to the `read`
  and `write` system calls supplied as an explicit oracle.
-/

/-- The modulus of 64-bit machine words: every register or memory value in the
source is a `u64`. -/
def W : Nat := 2 ^ 64

/-- Register context for stack backtracking (`struct Registers`). -/
structure Registers where
  pc : Nat
  fp : Nat
deriving DecidableEq

/-- Modelled stack memory: a partial map from addresses to stored words,
mirroring the signature of `load::<u64> : u64 -> Option<u64>`; `none` is a
read rejected by the probe. -/
def Mem : Type := Nat → Option Nat

/-- The caller's `FnMut(u64) -> bool` callback: the verdict may depend on the
0-based invocation index (modelling the closure's mutable state) and on the pc
passed to it. -/
def Callback : Type := Nat → Nat → Bool

/-- One observable step of a walk, in program order: a callback invocation
(the pc delivered and the verdict returned) or a call to `load` (the address
read and the result). -/
inductive Event where
  | callEv (pc : Nat) (cont : Bool)
  | loadEv (addr : Nat) (res : Option Nat)
deriving DecidableEq

/-- How a walk ended. -/
inductive Outcome where
  | extractFailed
  | captureFailed
  | chainExhausted
  | stoppedByCallback
  | unreadableMemory
  | fuelExhausted
deriving DecidableEq

/-- The `while fp != 0` loop of `trace_from_ucontext` (src/lib.rs:188-201).
`k` is the 0-based index of the next callback invocation.  Loop body, exactly
as in the source: read the word at `fp + 8` (wrapping, the read value is a
`u64` hence reduced mod `W`), return on a rejected read; decrement it by 1
(wrapping); hand it to the callback, return if the callback declines; read the
word at `fp` as the next frame pointer, return on a rejected read.  The fuel
bounds the number of iterations; running out is `Outcome.fuelExhausted`. -/
def walkLoop (mem : Mem) (f : Callback) : Nat → Nat → Nat → List Event × Outcome
  | 0, _, _ => ([], Outcome.fuelExhausted)
  | fuel + 1, k, fp =>
    if fp = 0 then ([], Outcome.chainExhausted)
    else
      match mem ((fp + 8) % W) with
      | none => ([Event.loadEv ((fp + 8) % W) none], Outcome.unreadableMemory)
      | some v0 =>
        let v := v0 % W
        let pc := (v + (W - 1)) % W
        if f k pc then
          match mem fp with
          | none =>
            ([Event.loadEv ((fp + 8) % W) (some v), Event.callEv pc true,
              Event.loadEv fp none], Outcome.unreadableMemory)
          | some w0 =>
            let r := walkLoop mem f fuel (k + 1) (w0 % W)
            (Event.loadEv ((fp + 8) % W) (some v) :: Event.callEv pc true ::
              Event.loadEv fp (some (w0 % W)) :: r.1, r.2)
        else
          ([Event.loadEv ((fp + 8) % W) (some v), Event.callEv pc false],
            Outcome.stoppedByCallback)

/-- `trace_from_ucontext` (src/lib.rs:177-202): extract the registers (`none`
models `Registers::from_ucontext` returning `None`, on which the source
returns at once), deliver the initial pc unadjusted, then run the loop. -/
def trace_from_ucontext (fuel : Nat) (regs : Option Registers) (mem : Mem)
    (f : Callback) : List Event × Outcome :=
  match regs with
  | none => ([], Outcome.extractFailed)
  | some r =>
    if f 0 r.pc then
      let w := walkLoop mem f fuel 1 r.fp
      (Event.callEv r.pc true :: w.1, w.2)
    else ([Event.callEv r.pc false], Outcome.stoppedByCallback)

/-- `trace` (src/lib.rs:152-169): call `getcontext`; on a non-zero return the
source returns at once, otherwise it hands the captured context to
`trace_from_ucontext`.  `gcRes` is the value `getcontext` returned and
`captured` the registers extracted from the captured context. -/
def trace (gcRes : Int) (captured : Option Registers) (fuel : Nat) (mem : Mem)
    (f : Callback) : List Event × Outcome :=
  if gcRes ≠ 0 then ([], Outcome.captureFailed)
  else trace_from_ucontext fuel captured mem f

/-- `load` without the `memory-access-check` feature (src/lib.rs:288-292):
unconditionally dereference.  `raw` is the (total) contents of the address
space; the read yields a `u64`. -/
def load_unchecked (raw : Nat → Nat) : Mem :=
  fun address => some (raw address % W)

/-- `load` with the `memory-access-check` feature on Linux
(src/lib.rs:298-306): consult the probe first, reject the read when it says
the address is not accessible. -/
def load_checked (canAccess : Nat → Bool) (raw : Nat → Nat) : Mem :=
  fun address => if canAccess address then some (raw address % W) else none

/-! ## Register extraction (`Registers::from_ucontext`, four platform variants) -/

/-- `libc::REG_RIP` on x86_64-linux. -/
def REG_RIP : Fin 23 := 16

/-- `libc::REG_RBP` on x86_64-linux. -/
def REG_RBP : Fin 23 := 10

/-- The Rust cast `i64 as u64`. -/
def i64_as_u64 (x : Int) : Nat := (x % (2 ^ 64 : Int)).toNat

/-- x86_64-linux `mcontext_t`: the `gregs` array of 23 signed registers. -/
structure McontextLinuxX86 where
  gregs : Fin 23 → Int

/-- x86_64-linux `ucontext_t`: `uc_mcontext` is embedded inline. -/
structure UcontextLinuxX86 where
  uc_mcontext : McontextLinuxX86

/-- `Registers::from_ucontext` on x86_64-linux (src/lib.rs:220-231): `None`
exactly on a null context pointer, else `gregs[REG_RIP] as u64` and
`gregs[REG_RBP] as u64`. -/
def from_ucontext_x86_64_linux (ucontext : Option UcontextLinuxX86) :
    Option Registers :=
  match ucontext with
  | none => none
  | some uc =>
    some { pc := i64_as_u64 (uc.uc_mcontext.gregs REG_RIP),
           fp := i64_as_u64 (uc.uc_mcontext.gregs REG_RBP) }

/-- Darwin x86_64 `__darwin_x86_thread_state64` (the `__ss` block): the two
fields the extractor reads, already unsigned 64-bit. -/
structure DarwinX86ThreadState where
  __rip : Nat
  __rbx : Nat

/-- Darwin x86_64 `ucontext_t`: `uc_mcontext` is a nullable pointer to the
mcontext holding `__ss`. -/
structure UcontextMacosX86 where
  uc_mcontext : Option DarwinX86ThreadState

/-- `Registers::from_ucontext` on x86_64-macos (src/lib.rs:233-249): `None` on
a null context or a null `uc_mcontext` pointer, else `__ss.__rip` and
`__ss.__rbx` verbatim (this build uses `rbx` as the frame pointer). -/
def from_ucontext_x86_64_macos (ucontext : Option UcontextMacosX86) :
    Option Registers :=
  match ucontext with
  | none => none
  | some uc =>
    match uc.uc_mcontext with
    | none => none
    | some ss => some { pc := ss.__rip, fp := ss.__rbx }

/-- aarch64-linux `mcontext_t`: `regs` (31 unsigned registers) and `pc`. -/
structure McontextLinuxArm where
  regs : Fin 31 → Nat
  pc : Nat

/-- aarch64-linux `ucontext_t`: `uc_mcontext` is embedded inline. -/
structure UcontextLinuxArm where
  uc_mcontext : McontextLinuxArm

/-- Intended behaviour of `Registers::from_ucontext` on aarch64-linux
(src/lib.rs:251-262).  The source constructs `Ok(Self {..})` on line 258
although the function returns `Option<Self>`, so this `cfg` variant does not
type-check; the spec (section 4.1) and the three sibling variants make the
intent `Some`.  This definition follows that intent: `None` exactly on a null
context, else `mcontext.pc` and `mcontext.regs[29]` verbatim. -/
def from_ucontext_aarch64_linux (ucontext : Option UcontextLinuxArm) :
    Option Registers :=
  match ucontext with
  | none => none
  | some uc => some { pc := uc.uc_mcontext.pc, fp := uc.uc_mcontext.regs 29 }

/-- Darwin aarch64 `__darwin_arm_thread_state64` (the `__ss` block): the two
fields the extractor reads. -/
structure DarwinArmThreadState where
  __pc : Nat
  __fp : Nat

/-- Darwin aarch64 `ucontext_t`: `uc_mcontext` is a nullable pointer. -/
structure UcontextMacosArm where
  uc_mcontext : Option DarwinArmThreadState

/-- `Registers::from_ucontext` on aarch64-macos (src/lib.rs:264-280): `None`
on a null context or a null `uc_mcontext` pointer, else `__ss.__pc` and
`__ss.__fp` verbatim. -/
def from_ucontext_aarch64_macos (ucontext : Option UcontextMacosArm) :
    Option Registers :=
  match ucontext with
  | none => none
  | some uc =>
    match uc.uc_mcontext with
    | none => none
    | some ss => some { pc := ss.__pc, fp := ss.__fp }

/-! ## The memory probe (`access_check::can_access`) -/

/-- errno classes distinguished by `can_access`. -/
inductive Errno where
  | eintr
  | eagain
  | other
deriving DecidableEq

/-- Result of one `read`/`write` system call: `ok n` is a return value
`n ≥ 0` (bytes transferred), `err e` is a `-1` return with `errno = e`. -/
inductive SysRes where
  | ok (n : Nat)
  | err (e : Errno)
deriving DecidableEq

/-- The drain loop of `can_access` (src/lib.rs:335-346): repeat the
non-blocking `read` until it yields data (`ok n`, `n > 0`: `true`), would
block (`EAGAIN`: `true`), or fails otherwise (`false`); `EINTR` and a zero
return retry.  `readFn i` is the kernel's result of the i-th `read`; `none`
means the fuel ran out (the source loop would still be spinning). -/
def drainLoop (readFn : Nat → SysRes) : Nat → Nat → Option Bool
  | 0, _ => none
  | fuel + 1, i =>
    match readFn i with
    | SysRes.err Errno.eintr => drainLoop readFn fuel (i + 1)
    | SysRes.err Errno.eagain => some true
    | SysRes.err Errno.other => some false
    | SysRes.ok n => if 0 < n then some true else drainLoop readFn fuel (i + 1)

/-- The write loop of `can_access` (src/lib.rs:352-363): repeat
`write(pipes[1], address, 1)` until it transfers a byte (`true`), would block
(`EAGAIN`: `true`), or fails otherwise (`false`); `EINTR` and a zero return
retry.  Also counts the `write` system calls issued. -/
def writeLoop (writeFn : Nat → SysRes) : Nat → Nat → Option Bool × Nat
  | 0, _ => (none, 0)
  | fuel + 1, i =>
    match writeFn i with
    | SysRes.err Errno.eintr =>
      let r := writeLoop writeFn fuel (i + 1)
      (r.1, r.2 + 1)
    | SysRes.err Errno.eagain => (some true, 1)
    | SysRes.err Errno.other => (some false, 1)
    | SysRes.ok n =>
      if 0 < n then (some true, 1)
      else
        let r := writeLoop writeFn fuel (i + 1)
        (r.1, r.2 + 1)

/-- The thread-local pipe pair `CAN_ACCESS_PIPE`; `-1` marks a failed
initialization. -/
structure Pipes where
  fd0 : Int
  fd1 : Int

/-- `access_check::can_access` (src/lib.rs:327-365): report inaccessible when
the pipe initialization failed; drain the pipe (inaccessible if the drain
fails); then probe by writing one byte whose source buffer is `address` — the
kernel dereferences `address` during copy-in, so `writeRes address i` (the
kernel's result of the i-th such `write`) is `err other` (e.g. `EFAULT`) when
the address is unreadable.  Returns the verdict (`none` when the fuel ran
out) and the number of `write` system calls issued. -/
def can_access (pipes : Pipes) (readFn : Nat → SysRes)
    (writeRes : Nat → Nat → SysRes) (fuel : Nat) (address : Nat) :
    Option Bool × Nat :=
  if pipes.fd0 = -1 ∨ pipes.fd1 = -1 then (some false, 0)
  else
    match drainLoop readFn fuel 0 with
    | none => (none, 0)
    | some false => (some false, 0)
    | some true => writeLoop (writeRes address) fuel 0

/-! ## Derived observations on event lists -/

/-- The pcs delivered to the callback, in order. -/
def callPCs : List Event → List Nat
  | [] => []
  | Event.callEv pc _ :: rest => pc :: callPCs rest
  | Event.loadEv _ _ :: rest => callPCs rest

/-- Number of callback invocations. -/
def countCalls : List Event → Nat
  | [] => 0
  | Event.callEv _ _ :: rest => countCalls rest + 1
  | Event.loadEv _ _ :: rest => countCalls rest

/-- `true` when the event is a rejected `load`. -/
def isFailedLoad : Event → Bool
  | Event.loadEv _ none => true
  | _ => false

/-- Every callback invocation that returned `false` is the final event of the
run: nothing — in particular no `load` — happens after it. -/
def stopsAfterFalseCall : List Event → Bool
  | [] => true
  | Event.callEv _ b :: rest => if b then stopsAfterFalseCall rest else rest.isEmpty
  | Event.loadEv _ _ :: rest => stopsAfterFalseCall rest

/-- Every rejected `load` is the final event of the run: no callback
invocation and no further read happens after it. -/
def stopsAfterFailedLoad : List Event → Bool
  | [] => true
  | Event.loadEv _ none :: rest => rest.isEmpty
  | Event.loadEv _ (some _) :: rest => stopsAfterFailedLoad rest
  | Event.callEv _ _ :: rest => stopsAfterFailedLoad rest

/-- `true` iff the outcome is `unreadableMemory`. -/
def isUnreadableOutcome : Outcome → Bool
  | Outcome.unreadableMemory => true
  | _ => false

/-- `true` when the run contains a rejected `load`. -/
def hasFailedLoad : List Event → Bool
  | [] => false
  | e :: rest => isFailedLoad e || hasFailedLoad rest

/-- A run halts gracefully on a rejected load: any rejected load is its last
event, and if one occurred the run's outcome is `unreadableMemory`. -/
def haltsOnFailedLoad : List Event × Outcome → Bool
  | (evs, out) =>
    stopsAfterFailedLoad evs &&
      (!(hasFailedLoad evs) || isUnreadableOutcome out)

/-- A synthetic frame-pointer chain starting at `fp`: each entry
`(ret, next)` is one frame record — the word at `fp + 8` holds `ret` and the
word at `fp` holds `next` — and the chain terminator is `fp = 0`. -/
def isChain (mem : Mem) : Nat → List (Nat × Nat) → Prop
  | fp, [] => fp = 0
  | fp, (ret, next) :: rest =>
    fp ≠ 0 ∧ mem ((fp + 8) % W) = some ret ∧ mem fp = some next ∧
      isChain mem next rest

/-- Well-formed frame records: stored return addresses are nonzero `u64`
values and stored frame pointers are `u64` values. -/
def framesWF (frames : List (Nat × Nat)) : Prop :=
  ∀ p ∈ frames, 0 < p.1 ∧ p.1 < W ∧ p.2 < W

/-- The always-continue callback. -/
def alwaysTrue : Callback := fun _ _ => true

-- Sanity: a two-frame chain walked to exhaustion.
example :
    trace_from_ucontext 3 (some ⟨500, 32⟩)
      (fun a =>
        if a = 40 then some 1001 else if a = 32 then some 16
        else if a = 24 then some 2001 else if a = 16 then some 0 else none)
      alwaysTrue
    = ([Event.callEv 500 true, Event.loadEv 40 (some 1001),
        Event.callEv 1000 true, Event.loadEv 32 (some 16),
        Event.loadEv 24 (some 2001), Event.callEv 2000 true,
        Event.loadEv 16 (some 0)], Outcome.chainExhausted) := by
  decide

/-! ## Helper lemmas -/

lemma W_pos : 0 < W := by norm_num [W]

/-- Wrapping decrement: for a `u64` value `v > 0`, `v - 1` computed as
`(v + (W - 1)) % W` is the plain `v - 1`. -/
lemma sub_one_mod (v : Nat) (h1 : 0 < v) (h2 : v < W) :
    (v + (W - 1)) % W = v - 1 := by
  have hW := W_pos
  have h3 : v + (W - 1) = (v - 1) + W := by omega
  rw [h3, Nat.add_mod_right, Nat.mod_eq_of_lt (by omega)]

/-- Walking a well-formed synthetic chain with an always-continue callback
delivers, in order, one decremented return address per frame and ends with
`chainExhausted`. -/
lemma walkLoop_chain (mem : Mem) (f : Callback) (hf : ∀ k x, f k x = true) :
    ∀ (frames : List (Nat × Nat)) (fuel k fp : Nat),
      isChain mem fp frames → framesWF frames → frames.length < fuel →
      callPCs (walkLoop mem f fuel k fp).1 = frames.map (fun p => p.1 - 1) ∧
      (walkLoop mem f fuel k fp).2 = Outcome.chainExhausted := by
  intro frames
  induction frames with
  | nil =>
    intro fuel k fp hchain hwf hfuel
    obtain ⟨m, rfl⟩ : ∃ m, fuel = m + 1 := ⟨fuel - 1, by omega⟩
    have hfp : fp = 0 := hchain
    simp [walkLoop, hfp, callPCs]
  | cons hd rest ih =>
    obtain ⟨ret, next⟩ := hd
    intro fuel k fp hchain hwf hfuel
    obtain ⟨m, rfl⟩ : ∃ m, fuel = m + 1 := ⟨fuel - 1, by omega⟩
    obtain ⟨hfp, h8, hn, hrest⟩ := hchain
    have hw1 := hwf (ret, next) (by simp)
    have hv : ret % W = ret := Nat.mod_eq_of_lt hw1.2.1
    have hnext : next % W = next := Nat.mod_eq_of_lt hw1.2.2
    have hpc : (ret % W + (W - 1)) % W = ret - 1 := by
      rw [hv]; exact sub_one_mod ret hw1.1 hw1.2.1
    have hwf' : framesWF rest := fun p hp => hwf p (List.mem_cons_of_mem _ hp)
    have ihr := ih m (k + 1) next hrest hwf' (by simp at hfuel ⊢; omega)
    simp only [walkLoop, h8, hn, if_neg hfp, hpc, hf, if_true, hnext, callPCs,
      List.map_cons]
    exact ⟨by rw [ihr.1], ihr.2⟩

/-- C1: walking a synthetic frame-pointer chain of length N from registers
`{pc, fp}` with an always-continue callback invokes the callback exactly N+1
times, innermost to outermost: first the initial `pc` unadjusted, then, for
each frame, the word stored at offset +8 from the current frame pointer
decremented by exactly 1; the walk ends with the chain exhausted. -/
theorem walk_synthetic_chain (mem : Mem) (f : Callback) (pc fp : Nat)
    (frames : List (Nat × Nat)) (fuel : Nat)
    (hf : ∀ k x, f k x = true)
    (hchain : isChain mem fp frames) (hwf : framesWF frames)
    (hfuel : frames.length < fuel) :
    callPCs (trace_from_ucontext fuel (some ⟨pc, fp⟩) mem f).1
        = pc :: frames.map (fun p => p.1 - 1) ∧
      countCalls (trace_from_ucontext fuel (some ⟨pc, fp⟩) mem f).1
        = frames.length + 1 ∧
      (trace_from_ucontext fuel (some ⟨pc, fp⟩) mem f).2
        = Outcome.chainExhausted := by
  have h := walkLoop_chain mem f hf frames fuel 1 fp hchain hwf hfuel
  have hcount : ∀ evs : List Event, countCalls evs = (callPCs evs).length := by
    intro evs
    induction evs with
    | nil => rfl
    | cons e rest ihe => cases e <;> simp [countCalls, callPCs, ihe]
  constructor
  · simp [trace_from_ucontext, hf, callPCs, h.1]
  constructor
  · simp [trace_from_ucontext, hf, hcount, callPCs, h.1]
  · simp [trace_from_ucontext, hf, h.2]

/-- Memory holding a concrete two-frame chain used by the C1 witness. -/
def chainMem : Mem := fun a =>
  if a = 40 then some 1001 else if a = 32 then some 16
  else if a = 24 then some 2001 else if a = 16 then some 0 else none

/-- Witness for C1 on a concrete two-frame chain. -/
theorem walk_synthetic_chain_witness :
    callPCs (trace_from_ucontext 3 (some ⟨500, 32⟩) chainMem alwaysTrue).1
        = [500, 1000, 2000] ∧
      countCalls (trace_from_ucontext 3 (some ⟨500, 32⟩) chainMem alwaysTrue).1
        = 3 ∧
      (trace_from_ucontext 3 (some ⟨500, 32⟩) chainMem alwaysTrue).2
        = Outcome.chainExhausted := by
  have h := walk_synthetic_chain chainMem alwaysTrue 500 32 [(1001, 16), (2001, 0)] 3
    (fun _ _ => rfl)
    ⟨by decide, rfl, rfl, by decide, rfl, rfl, rfl⟩
    (by unfold framesWF; decide)
    (by decide)
  simpa using h

/-- In any run of the walk loop, a callback invocation that returned `false`
is the final event. -/
lemma walkLoop_stopsAfterFalseCall (mem : Mem) (f : Callback) :
    ∀ fuel k fp, stopsAfterFalseCall (walkLoop mem f fuel k fp).1 = true := by
  intro fuel
  induction fuel with
  | zero => intro k fp; simp [walkLoop, stopsAfterFalseCall]
  | succ n ih =>
    intro k fp
    by_cases hfp : fp = 0
    · simp [walkLoop, hfp, stopsAfterFalseCall]
    · cases h8 : mem ((fp + 8) % W) with
      | none => simp [walkLoop, hfp, h8, stopsAfterFalseCall]
      | some v0 =>
        cases hfk : f k ((v0 + (W - 1)) % W) with
        | false => simp [walkLoop, hfp, h8, hfk, stopsAfterFalseCall]
        | true =>
          cases hm : mem fp with
          | none => simp [walkLoop, hfp, h8, hfk, hm, stopsAfterFalseCall]
          | some w0 => simp [walkLoop, hfp, h8, hfk, hm, stopsAfterFalseCall, ih]

/-- C3: whenever the caller's callback returns `false`, that invocation is the
last event of the walk: the callback is not invoked again (so a `false` on the
k-th invocation makes k the total) and no `load` call happens afterwards. -/
theorem callback_false_halts_walk (fuel : Nat) (regs : Option Registers)
    (mem : Mem) (f : Callback) :
    stopsAfterFalseCall (trace_from_ucontext fuel regs mem f).1 = true := by
  cases regs with
  | none => simp [trace_from_ucontext, stopsAfterFalseCall]
  | some r =>
    cases h0 : f 0 r.pc with
    | false => simp [trace_from_ucontext, h0, stopsAfterFalseCall]
    | true =>
      simp [trace_from_ucontext, h0, stopsAfterFalseCall,
        walkLoop_stopsAfterFalseCall]

/-- In any run of the walk loop, a rejected `load` is the final event. -/
lemma walkLoop_stopsAfterFailedLoad (mem : Mem) (f : Callback) :
    ∀ fuel k fp, stopsAfterFailedLoad (walkLoop mem f fuel k fp).1 = true := by
  intro fuel
  induction fuel with
  | zero => intro k fp; simp [walkLoop, stopsAfterFailedLoad]
  | succ n ih =>
    intro k fp
    by_cases hfp : fp = 0
    · simp [walkLoop, hfp, stopsAfterFailedLoad]
    · cases h8 : mem ((fp + 8) % W) with
      | none => simp [walkLoop, hfp, h8, stopsAfterFailedLoad]
      | some v0 =>
        cases hfk : f k ((v0 + (W - 1)) % W) with
        | false => simp [walkLoop, hfp, h8, hfk, stopsAfterFailedLoad]
        | true =>
          cases hm : mem fp with
          | none => simp [walkLoop, hfp, h8, hfk, hm, stopsAfterFailedLoad]
          | some w0 =>
            simp [walkLoop, hfp, h8, hfk, hm, stopsAfterFailedLoad, ih]

/-- If a run of the walk loop contains a rejected `load`, the run's outcome is
`unreadableMemory`. -/
lemma walkLoop_failedLoad_outcome (mem : Mem) (f : Callback) :
    ∀ fuel k fp, hasFailedLoad (walkLoop mem f fuel k fp).1 = true →
      (walkLoop mem f fuel k fp).2 = Outcome.unreadableMemory := by
  intro fuel
  induction fuel with
  | zero => intro k fp h; simp [walkLoop, hasFailedLoad] at h
  | succ n ih =>
    intro k fp h
    by_cases hfp : fp = 0
    · simp [walkLoop, hfp, hasFailedLoad] at h
    · cases h8 : mem ((fp + 8) % W) with
      | none => simp [walkLoop, hfp, h8]
      | some v0 =>
        cases hfk : f k ((v0 + (W - 1)) % W) with
        | false =>
          simp [walkLoop, hfp, h8, hfk, hasFailedLoad, isFailedLoad] at h
        | true =>
          cases hm : mem fp with
          | none => simp [walkLoop, hfp, h8, hfk, hm]
          | some w0 =>
            simp [walkLoop, hfp, h8, hfk, hm, hasFailedLoad, isFailedLoad] at h
            simp [walkLoop, hfp, h8, hfk, hm]
            exact ih (k + 1) (w0 % W) h

/-- Any run of the walk halts gracefully on a rejected load. -/
lemma trace_haltsOnFailedLoad (fuel : Nat) (regs : Option Registers)
    (mem : Mem) (f : Callback) :
    haltsOnFailedLoad (trace_from_ucontext fuel regs mem f) = true := by
  cases regs with
  | none =>
    simp [trace_from_ucontext, haltsOnFailedLoad, stopsAfterFailedLoad,
      hasFailedLoad]
  | some r =>
    cases h0 : f 0 r.pc with
    | false =>
      simp [trace_from_ucontext, h0, haltsOnFailedLoad, stopsAfterFailedLoad,
        hasFailedLoad, isFailedLoad]
    | true =>
      have hstops := walkLoop_stopsAfterFailedLoad mem f fuel 1 r.fp
      by_cases hany : hasFailedLoad (walkLoop mem f fuel 1 r.fp).1 = true
      · have hout := walkLoop_failedLoad_outcome mem f fuel 1 r.fp hany
        simp [trace_from_ucontext, h0, haltsOnFailedLoad, stopsAfterFailedLoad,
          hasFailedLoad, isFailedLoad, hstops, hany, hout, isUnreadableOutcome]
      · simp only [Bool.not_eq_true] at hany
        simp [trace_from_ucontext, h0, haltsOnFailedLoad, stopsAfterFailedLoad,
          hasFailedLoad, isFailedLoad, hstops, hany]

/-- C4: with the memory probe enabled (`load_checked`), a rejected load is the
final event of the walk — every address discovered before it has already been
delivered to the callback, nothing is delivered afterwards — and the walk
ends in the graceful `unreadableMemory` outcome (no fault). -/
theorem probe_rejection_halts_walk (fuel : Nat) (regs : Option Registers)
    (acc : Nat → Bool) (raw : Nat → Nat) (f : Callback) :
    haltsOnFailedLoad (trace_from_ucontext fuel regs (load_checked acc raw) f)
      = true :=
  trace_haltsOnFailedLoad fuel regs (load_checked acc raw) f

/-- If every address is readable, the walk loop never ends with
`unreadableMemory`. -/
lemma walkLoop_total_mem (mem : Mem) (f : Callback)
    (hmem : ∀ a, ∃ v, mem a = some v) :
    ∀ fuel k fp, isUnreadableOutcome (walkLoop mem f fuel k fp).2 = false := by
  intro fuel
  induction fuel with
  | zero => intro k fp; simp [walkLoop, isUnreadableOutcome]
  | succ n ih =>
    intro k fp
    by_cases hfp : fp = 0
    · simp [walkLoop, hfp, isUnreadableOutcome]
    · obtain ⟨v0, h8⟩ := hmem ((fp + 8) % W)
      obtain ⟨w0, hm⟩ := hmem fp
      cases hfk : f k ((v0 + (W - 1)) % W) with
      | false => simp [walkLoop, hfp, h8, hfk, isUnreadableOutcome]
      | true => simp [walkLoop, hfp, h8, hfk, hm, ih]

/-- C10: without the `memory-access-check` feature, `load` returns `Some` for
every address (no accessibility check), so a walk can never end through the
unreadable-memory branches: its outcome is chain exhaustion, a callback
`false`, a pre-walk failure, or — for a chain that never terminates — none at
all (fuel exhaustion at every bound). -/
theorem unchecked_load_never_rejects (raw : Nat → Nat) :
    (∀ a, load_unchecked raw a = some (raw a % W)) ∧
    (∀ (fuel : Nat) (regs : Option Registers) (f : Callback),
      isUnreadableOutcome
        (trace_from_ucontext fuel regs (load_unchecked raw) f).2 = false) := by
  constructor
  · intro a; rfl
  · intro fuel regs f
    have hmem : ∀ a, ∃ v, load_unchecked raw a = some v :=
      fun a => ⟨raw a % W, rfl⟩
    cases regs with
    | none => simp [trace_from_ucontext, isUnreadableOutcome]
    | some r =>
      cases h0 : f 0 r.pc with
      | false => simp [trace_from_ucontext, h0, isUnreadableOutcome]
      | true =>
        simp [trace_from_ucontext, h0,
          walkLoop_total_mem (load_unchecked raw) f hmem]

/-- C6: the walk performs no cycle detection: from a self-referential frame
record (the word at `fp` is `fp` itself) whose loads always succeed and with a
callback that always continues, the loop is still running after every fuel
bound — it terminates only when `fp` reads as 0, a load is rejected, or the
callback returns `false`. -/
theorem walk_no_cycle_detection (mem : Mem) (f : Callback) (fp r : Nat)
    (hfp : fp ≠ 0) (hlt : fp < W)
    (h8 : mem ((fp + 8) % W) = some r)
    (hself : mem fp = some fp)
    (hf : ∀ k x, f k x = true) :
    ∀ fuel k, (walkLoop mem f fuel k fp).2 = Outcome.fuelExhausted := by
  intro fuel
  induction fuel with
  | zero => intro k; simp [walkLoop]
  | succ n ih =>
    intro k
    simp [walkLoop, hfp, h8, hself, hf, Nat.mod_eq_of_lt hlt, ih]

/-- Self-referential frame record used by the C6 witness: the word at 8 is 8. -/
def cycleMem : Mem := fun a =>
  if a = 8 then some 8 else if a = 16 then some 7 else none

/-- Witness for C6: the self-referential chain at fp = 8 is still running
after 5 iterations. -/
theorem walk_no_cycle_detection_witness :
    (walkLoop cycleMem alwaysTrue 5 1 8).2 = Outcome.fuelExhausted :=
  walk_no_cycle_detection cycleMem alwaysTrue 8 7 (by decide) (by decide)
    (by decide) (by decide) (fun _ _ => rfl) 5 1

/-- C9: the walker's address arithmetic is modulo 2^64 (release-mode wrapping
semantics; a debug build would panic on the same inputs instead of wrapping).
First part: when the stored return address read at `fp + 8` is 0, the value
handed to the callback is (0 - 1) mod 2^64 = 2^64 - 1.  Second part: when
`fp > 2^64 - 9`, the address used for the return-address read is `fp + 8`
wrapped modulo 2^64, i.e. `fp + 8 - 2^64`. -/
theorem walker_arith_mod_2_64 :
    (∀ (mem : Mem) (f : Callback) (fuel k fp : Nat), fp ≠ 0 →
      mem ((fp + 8) % W) = some 0 →
      ∃ rest, (walkLoop mem f (fuel + 1) k fp).1
        = Event.loadEv ((fp + 8) % W) (some 0)
            :: Event.callEv (W - 1) (f k (W - 1)) :: rest) ∧
    (∀ (mem : Mem) (f : Callback) (fuel k fp v0 : Nat),
      W - 8 ≤ fp → fp < W → mem (fp + 8 - W) = some v0 →
      ∃ rest, (walkLoop mem f (fuel + 1) k fp).1
        = Event.loadEv (fp + 8 - W) (some (v0 % W)) :: rest) := by
  have hW := W_pos
  constructor
  · intro mem f fuel k fp hfp h8
    have hpc : (0 % W + (W - 1)) % W = W - 1 := by
      rw [Nat.zero_mod, Nat.zero_add, Nat.mod_eq_of_lt (by omega)]
    cases hfk : f k (W - 1) with
    | true =>
      cases hm : mem fp with
      | none =>
        exact ⟨[Event.loadEv fp none],
          by simp [walkLoop, hfp, h8, hpc, hfk, hm]⟩
      | some w0 =>
        exact ⟨Event.loadEv fp (some (w0 % W))
            :: (walkLoop mem f fuel (k + 1) (w0 % W)).1,
          by simp [walkLoop, hfp, h8, hpc, hfk, hm]⟩
    | false =>
      exact ⟨[], by simp [walkLoop, hfp, h8, hpc, hfk]⟩
  · intro mem f fuel k fp v0 h1 h2 h8
    have hWn : W = 18446744073709551616 := by norm_num [W]
    have hfp : fp ≠ 0 := by omega
    have haddr : (fp + 8) % W = fp + 8 - W := by
      rw [Nat.mod_eq_sub_mod (by omega)]
      exact Nat.mod_eq_of_lt (by omega)
    cases hfk : f k ((v0 + (W - 1)) % W) with
    | true =>
      cases hm : mem fp with
      | none =>
        exact ⟨[Event.callEv ((v0 % W + (W - 1)) % W) true, Event.loadEv fp none],
          by simp [walkLoop, hfp, haddr, h8, hfk, hm]⟩
      | some w0 =>
        exact ⟨Event.callEv ((v0 % W + (W - 1)) % W) true
            :: Event.loadEv fp (some (w0 % W))
            :: (walkLoop mem f fuel (k + 1) (w0 % W)).1,
          by simp [walkLoop, hfp, haddr, h8, hfk, hm]⟩
    | false =>
      exact ⟨[Event.callEv ((v0 % W + (W - 1)) % W) false],
        by simp [walkLoop, hfp, haddr, h8, hfk]⟩

/-- Memory with a stored return address 0, for the C9 witness. -/
def zeroRetMem : Mem := fun a => if a = 24 then some 0 else none

/-- Memory readable at the wrapped address 4, for the C9 witness. -/
def wrapMem : Mem := fun a => if a = 4 then some 9 else none

/-- Witness for C9: at fp = 16 with stored return address 0 the callback
receives 2^64 - 1; at fp = 2^64 - 4 the return-address read goes to the
wrapped address 4. -/
theorem walker_arith_mod_2_64_witness :
    (∃ rest, (walkLoop zeroRetMem alwaysTrue 1 1 16).1
        = Event.loadEv 24 (some 0) :: Event.callEv (W - 1) true :: rest) ∧
    (∃ rest, (walkLoop wrapMem alwaysTrue 1 1 (W - 4)).1
        = Event.loadEv 4 (some 9) :: rest) := by
  have h24 : (16 + 8) % W = 24 := by decide
  have h4 : W - 4 + 8 - W = 4 := by decide
  have h9 : 9 % W = 9 := by decide
  constructor
  · have h := walker_arith_mod_2_64.1 zeroRetMem alwaysTrue 0 1 16
      (by decide) (by decide)
    simpa [h24, alwaysTrue] using h
  · have h := walker_arith_mod_2_64.2 wrapMem alwaysTrue 0 1 (W - 4) 9
      (by decide) (by decide) (by decide)
    simpa [h4, h9] using h

/-- C5: when the platform capture primitive fails (`getcontext` returns
non-zero) or register extraction fails (`from_ucontext` returns `None`), the
trace returns with the callback invoked zero times; no other error is
raised — the function simply returns. -/
theorem trace_failure_zero_calls (gcRes : Int) (regs : Option Registers)
    (fuel : Nat) (mem : Mem) (f : Callback)
    (h : gcRes ≠ 0 ∨ regs = none) :
    countCalls (trace gcRes regs fuel mem f).1 = 0 := by
  rcases h with h | h
  · simp [trace, h, countCalls]
  · subst h
    by_cases hg : gcRes = 0
    · simp [trace, hg, trace_from_ucontext, countCalls]
    · simp [trace, hg, countCalls]

/-- Witness for C5: a failed `getcontext` and a failed extraction both give
zero callback invocations. -/
theorem trace_failure_zero_calls_witness :
    countCalls (trace 1 (some ⟨7, 8⟩) 5 cycleMem alwaysTrue).1 = 0 ∧
    countCalls (trace 0 none 5 cycleMem alwaysTrue).1 = 0 :=
  ⟨trace_failure_zero_calls 1 (some ⟨7, 8⟩) 5 cycleMem alwaysTrue
      (Or.inl (by decide)),
    trace_failure_zero_calls 0 none 5 cycleMem alwaysTrue (Or.inr rfl)⟩

/-- C2 (for the four platform variants, with aarch64-linux taken at its
intended `Some` — the source's `Ok` on that variant does not type-check, see
`from_ucontext_aarch64_linux`): each extractor returns `none` exactly when the
context is null or, on the Darwin variants, when the inner `uc_mcontext`
pointer is null; otherwise it returns the register pair read verbatim from the
platform's fixed offsets. -/
theorem from_ucontext_reads_fixed_offsets :
    (from_ucontext_x86_64_linux none = none) ∧
    (∀ uc, from_ucontext_x86_64_linux (some uc)
        = some { pc := i64_as_u64 (uc.uc_mcontext.gregs REG_RIP),
                 fp := i64_as_u64 (uc.uc_mcontext.gregs REG_RBP) }) ∧
    (from_ucontext_x86_64_macos none = none) ∧
    (∀ ss, from_ucontext_x86_64_macos (some ⟨ss⟩)
        = ss.map fun b => { pc := b.__rip, fp := b.__rbx }) ∧
    (from_ucontext_aarch64_macos none = none) ∧
    (∀ ss, from_ucontext_aarch64_macos (some ⟨ss⟩)
        = ss.map fun b => { pc := b.__pc, fp := b.__fp }) ∧
    (from_ucontext_aarch64_linux none = none) ∧
    (∀ uc, from_ucontext_aarch64_linux (some uc)
        = some { pc := uc.uc_mcontext.pc, fp := uc.uc_mcontext.regs 29 }) := by
  refine ⟨rfl, fun uc => rfl, rfl, fun ss => ?_, rfl, fun ss => ?_, rfl,
    fun uc => rfl⟩
  · cases ss <;> rfl
  · cases ss <;> rfl

/-- C7: with the probe's pipe pair initialized and the stale byte drained (the
non-blocking read reports would-block), and under the kernel model in which
the probe write succeeds from a readable address but the copy-in from address
0 or from the maximal address 2^64 - 1 faults, `can_access` reports the
readable address accessible and both boundary addresses inaccessible. -/
theorem can_access_boundary (pipes : Pipes) (readFn : Nat → SysRes)
    (writeRes : Nat → Nat → SysRes) (fuel addr : Nat)
    (hfd0 : pipes.fd0 ≠ -1) (hfd1 : pipes.fd1 ≠ -1)
    (hread : readFn 0 = SysRes.err Errno.eagain)
    (hfuel : 0 < fuel)
    (hgood : writeRes addr 0 = SysRes.ok 1)
    (hbad0 : writeRes 0 0 = SysRes.err Errno.other)
    (hbadM : writeRes (W - 1) 0 = SysRes.err Errno.other) :
    (can_access pipes readFn writeRes fuel addr).1 = some true ∧
    (can_access pipes readFn writeRes fuel 0).1 = some false ∧
    (can_access pipes readFn writeRes fuel (W - 1)).1 = some false := by
  obtain ⟨m, rfl⟩ : ∃ m, fuel = m + 1 := ⟨fuel - 1, by omega⟩
  have hdrain : drainLoop readFn (m + 1) 0 = some true := by
    simp [drainLoop, hread]
  refine ⟨?_, ?_, ?_⟩ <;>
    simp [can_access, hfd0, hfd1, hdrain, writeLoop, hgood, hbad0, hbadM]

/-- A valid pipe pair, for the probe witnesses. -/
def goodPipes : Pipes := ⟨3, 4⟩

/-- A drain read that always reports would-block (empty pipe). -/
def drainEagain : Nat → SysRes := fun _ => SysRes.err Errno.eagain

/-- Kernel model for the C7 witness: the copy-in faults exactly at the two
boundary addresses. -/
def kernelWrites : Nat → Nat → SysRes := fun a _ =>
  if a = 0 ∨ a = W - 1 then SysRes.err Errno.other else SysRes.ok 1

/-- Witness for C7 at the readable address 42 and the two boundaries. -/
theorem can_access_boundary_witness :
    (can_access goodPipes drainEagain kernelWrites 1 42).1 = some true ∧
    (can_access goodPipes drainEagain kernelWrites 1 0).1 = some false ∧
    (can_access goodPipes drainEagain kernelWrites 1 (W - 1)).1 = some false :=
  can_access_boundary goodPipes drainEagain kernelWrites 1 42
    (by decide) (by decide) rfl (by decide) (by decide) (by decide) (by decide)

/-- C8: error handling of the probe.  On the write: would-block (`EAGAIN`)
means accessible, `EINTR` is retried transparently (here: a second write is
issued and succeeds), and any other error means inaccessible.  On the drain:
a read failure other than `EINTR`/`EAGAIN` makes `can_access` return `false`
with zero write system calls issued. -/
theorem can_access_error_branches (pipes : Pipes)
    (readFn rbad : Nat → SysRes) (wA wI wO : Nat → Nat → SysRes)
    (fuel addr : Nat)
    (hfd0 : pipes.fd0 ≠ -1) (hfd1 : pipes.fd1 ≠ -1)
    (hread : readFn 0 = SysRes.err Errno.eagain)
    (hfuel : 2 ≤ fuel)
    (hA : wA addr 0 = SysRes.err Errno.eagain)
    (hI0 : wI addr 0 = SysRes.err Errno.eintr)
    (hI1 : wI addr 1 = SysRes.ok 1)
    (hO : wO addr 0 = SysRes.err Errno.other)
    (hrb : rbad 0 = SysRes.err Errno.other) :
    (can_access pipes readFn wA fuel addr).1 = some true ∧
    can_access pipes readFn wI fuel addr = (some true, 2) ∧
    (can_access pipes readFn wO fuel addr).1 = some false ∧
    can_access pipes rbad wO fuel addr = (some false, 0) := by
  obtain ⟨m, rfl⟩ : ∃ m, fuel = m + 2 := ⟨fuel - 2, by omega⟩
  have hdrain : drainLoop readFn (m + 2) 0 = some true := by
    simp [drainLoop, hread]
  have hdrainBad : drainLoop rbad (m + 2) 0 = some false := by
    simp [drainLoop, hrb]
  refine ⟨?_, ?_, ?_, ?_⟩
  · simp [can_access, hfd0, hfd1, hdrain, writeLoop, hA]
  · simp [can_access, hfd0, hfd1, hdrain, writeLoop, hI0, hI1]
  · simp [can_access, hfd0, hfd1, hdrain, writeLoop, hO]
  · simp [can_access, hfd0, hfd1, hdrainBad]

/-- Writes that always report would-block. -/
def wEagain : Nat → Nat → SysRes := fun _ _ => SysRes.err Errno.eagain

/-- Writes interrupted once, then succeeding. -/
def wEintrThenOk : Nat → Nat → SysRes := fun _ i =>
  if i = 0 then SysRes.err Errno.eintr else SysRes.ok 1

/-- Writes that always fail with a non-retry error. -/
def wErr : Nat → Nat → SysRes := fun _ _ => SysRes.err Errno.other

/-- A drain read that fails with a non-retry error. -/
def drainErr : Nat → SysRes := fun _ => SysRes.err Errno.other

/-- Witness for C8 at the address 42 with concrete system-call behaviours. -/
theorem can_access_error_branches_witness :
    (can_access goodPipes drainEagain wEagain 2 42).1 = some true ∧
    can_access goodPipes drainEagain wEintrThenOk 2 42 = (some true, 2) ∧
    (can_access goodPipes drainEagain wErr 2 42).1 = some false ∧
    can_access goodPipes drainErr wErr 2 42 = (some false, 0) :=
  can_access_error_branches goodPipes drainEagain drainErr wEagain wEintrThenOk
    wErr 2 42 (by decide) (by decide) rfl (by decide) rfl rfl rfl rfl rfl
